import Mathlib

/-!
Shallow embedding of the getlisa/copilot-server conversation-context-assembly
and agent-orchestration pipeline, together with proofs of its specified
properties.  Pure functions of the TypeScript source are translated to Lean
functions; database reads become explicit list-of-rows parameters; the
external generation runtime, the JSON parser of the JS runtime and the AWS
URL signer are passed in as explicit function parameters.  JavaScript
optional / nullable fields are modelled with `Option`.
-/

namespace Copilot

/-! ## Data model (prisma schema / conversation.schema.ts) -/

/-- Message sender type (`USER | AI | SYSTEM`). -/
inductive SenderType
  | USER
  | AI
  | SYSTEM
deriving DecidableEq, Repr

/-- Message content type. -/
inductive ContentType
  | TEXT
  | IMAGE
  | AUDIO
  | VIDEO
  | FILE
  | TOOL_CALL
  | TOOL_RESULT
  | ERROR
deriving DecidableEq, Repr

/-- Message status. -/
inductive MessageStatus
  | PENDING
  | SENT
  | DELIVERED
  | READ
  | FAILED
  | EDITED
  | DELETED
deriving DecidableEq, Repr

/-- The per-attachment metadata object (`att.metadata.s3Key`). -/
structure AttachmentMeta where
  s3Key : Option String
deriving DecidableEq, Repr

/-- One entry of `Message.attachments` as probed by `getImageTool`. -/
structure Attachment where
  id : Option String
  url : Option String
  filename : Option String
  attType : Option String
  metadata : Option AttachmentMeta
deriving DecidableEq, Repr

/-- One structured image summary stored in `message.metadata.imageSummaries`,
with all the fields probed by `ClaraAgent.formatImageSummary`. -/
structure ImageSummaryMeta where
  attachmentId : Option String
  imageFileId : Option String
  image_id : Option String
  summary : Option String
  objects : Option (List String)
  observations : Option (List String)
  inferred_issue : Option String
  linked_entities : Option (List String)
deriving DecidableEq, Repr

/-- Message metadata as probed by `ClaraAgent.toImageSummaryItems`
(`Array.isArray(message.metadata?.imageSummaries)`; a non-array or absent
field is `none`). -/
structure MessageMetadata where
  imageSummaries : Option (List ImageSummaryMeta)
deriving DecidableEq, Repr

/-- A persisted message row.  `createdAt` is a timestamp in milliseconds. -/
structure Message where
  id : String
  conversationId : String
  senderType : SenderType
  content : String
  contentType : ContentType
  attachments : List Attachment
  metadata : MessageMetadata
  status : MessageStatus
  createdAt : Nat
deriving DecidableEq, Repr

/-- A conversation row (only the attributes the verified operations touch). -/
structure Conversation where
  id : String
  updatedAt : Nat
deriving DecidableEq, Repr

/-- A durable `image_files` row. -/
structure ImageRecord where
  id : String
  messageId : String
  conversationId : String
  s3Key : String
  mimeType : String
  filename : Option String
  createdAt : Nat
deriving DecidableEq, Repr

/-! ## lib/s3.ts -/

/-- A JavaScript `number` as far as the S3 TTL logic observes it: `NaN`,
the two infinities, or a finite value (modelled as a rational; the only
operations performed are order comparisons and `Math.min`, which agree with
the rational order on every finite double). -/
inductive JsNum
  | nan
  | posInf
  | negInf
  | num (q : ℚ)
deriving DecidableEq, Repr

/-- `Number.isFinite`. -/
def JsNum.isFinite : JsNum → Bool
  | .num _ => true
  | _ => false

/-- `S3 presign hard limit: 90 days` (`MAX_TTL = 60 * 60 * 24 * 90`). -/
def MAX_TTL : ℚ := 60 * 60 * 24 * 90

/-- `defaultTtl = Number.isFinite(configuredTtl) && configuredTtl > 0 ?
configuredTtl : 900`, where `configuredTtl` is the parsed
`S3_SIGNED_URL_TTL` environment value. -/
def defaultTtlModel (configuredTtl : JsNum) : ℚ :=
  match configuredTtl with
  | .num q => if 0 < q then q else 900
  | _ => 900

/-- The `safeTtl` computation of `getPresignedUrlForKey`:
`!Number.isFinite(expiresInSeconds) || expiresInSeconds <= 0 ? defaultTtl :
Math.min(expiresInSeconds, MAX_TTL)`. -/
def safeTtlModel (defaultTtl : ℚ) (expiresInSeconds : JsNum) : ℚ :=
  match expiresInSeconds with
  | .num q => if q ≤ 0 then defaultTtl else min q MAX_TTL
  | _ => defaultTtl

/-- `normalizeS3Key`: strip a leading `s3://bucket/` or `http(s)://host/`
prefix (regexes stripping `s3://host/` resp. `http(s)://host/`,
case-insensitive, host part nonempty, all the slashes after the host
consumed) from the trimmed key. -/
def stripHostPrefix (cs : List Char) : Option (List Char) :=
  let host := cs.takeWhile (fun c => c ≠ '/')
  let rest := cs.dropWhile (fun c => c ≠ '/')
  if host.isEmpty then none
  else
    match rest with
    | [] => none
    | _ => some (rest.dropWhile (fun c => c = '/'))

/-- Case-insensitive check that `cs` starts with the (lowercase) `pre`,
returning the remainder. -/
def dropCaseInsensitive (pre : List Char) (cs : List Char) : Option (List Char) :=
  match pre, cs with
  | [], rest => some rest
  | _ :: _, [] => none
  | p :: ps, c :: rest => if c.toLower = p then dropCaseInsensitive ps rest else none

def normalizeS3KeyChars (cs : List Char) : List Char :=
  let afterS3 :=
    match dropCaseInsensitive ("s3://".toList) cs with
    | some rest => (stripHostPrefix rest).getD cs
    | none => cs
  match dropCaseInsensitive ("https://".toList) afterS3 with
  | some rest => (stripHostPrefix rest).getD afterS3
  | none =>
    match dropCaseInsensitive ("http://".toList) afterS3 with
    | some rest => (stripHostPrefix rest).getD afterS3
    | none => afterS3

/-- JS `String.prototype.trim`: drop whitespace from both ends (defined
over character lists so that it evaluates by kernel reduction). -/
def jsTrim (s : String) : String :=
  String.mk (((s.toList.dropWhile Char.isWhitespace).reverse.dropWhile
    Char.isWhitespace).reverse)

/-- JS `String.prototype.startsWith`. -/
def jsStartsWith (s pre : String) : Bool :=
  pre.toList.isPrefixOf s.toList

/-- `normalizeS3Key` on strings (`key.trim()` then prefix stripping); the
empty key is returned unchanged (`if (!key) return key`). -/
def normalizeS3Key (key : String) : String :=
  if key = "" then key
  else String.mk (normalizeS3KeyChars (jsTrim key).toList)

/-- `getPresignedUrlForKey(key, expiresInSeconds = defaultTtl)`, with the
AWS `getSignedUrl` capability abstracted as `sign : key → ttl → url`.
`expiresInSeconds = none` models a call that omits the argument, which then
defaults to `defaultTtl`. -/
def getPresignedUrlForKeyModel (sign : String → ℚ → String)
    (configuredTtl : JsNum) (key : String) (expiresInSeconds : Option JsNum) :
    String :=
  let defaultTtl := defaultTtlModel configuredTtl
  let e := expiresInSeconds.getD (.num defaultTtl)
  sign (normalizeS3Key key) (safeTtlModel defaultTtl e)

/-! ## lib/imageSummarizer (unnamed part_009): summarizeImageUrl -/

/-- The structured summary object as parsed from the model's JSON output;
every field may be absent (`none`).  A present `objects` / `observations` /
`linked_entities` models a JSON array (`Array.isArray` true); `confidence`
is carried through untouched by the normalization, so its numeric value is
kept abstract. -/
structure StructuredSummary where
  source : Option String
  summary : Option String
  objects : Option (List String)
  observations : Option (List String)
  inferred_issue : Option String
  confidence : Option JsNum
  linked_entities : Option (List String)
deriving DecidableEq, Repr

/-- The normalization block of `summarizeImageUrl`:
`parsed.source = parsed.source ?? "user_upload"`, `parsed.summary =
parsed.summary ?? ""`, array fields default to `[]`, `inferred_issue`
defaults to `""`; `confidence` is left untouched. -/
def normalizeSummary (parsed : StructuredSummary) : StructuredSummary :=
  { source := some (parsed.source.getD "user_upload")
    summary := some (parsed.summary.getD "")
    objects := some (parsed.objects.getD [])
    observations := some (parsed.observations.getD [])
    inferred_issue := some (parsed.inferred_issue.getD "")
    confidence := parsed.confidence
    linked_entities := some (parsed.linked_entities.getD []) }

/-- `text.indexOf(c)` on the character list of a JS string (`none` for the
JS result `-1`). -/
def idxOfChar (c : Char) : List Char → Option Nat
  | [] => none
  | x :: xs => if x = c then some 0 else (idxOfChar c xs).map (· + 1)

/-- `text.lastIndexOf(c)` (`none` for `-1`). -/
def lastIdxOfChar (c : Char) (cs : List Char) : Option Nat :=
  match idxOfChar c cs.reverse with
  | some r => some (cs.length - 1 - r)
  | none => none

/-- The defensive `extractJson` of `summarizeImageUrl`: locate the first
brace-open and the last brace-close; when both exist in that order, return
`text.slice(start, end + 1)`, otherwise return the text unchanged. -/
def extractJson (text : String) : String :=
  let cs := text.toList
  match idxOfChar '{' cs with
  | some s =>
    match lastIdxOfChar '}' cs with
    | some e => if s < e then String.mk ((cs.drop s).take (e + 1 - s)) else text
    | none => text
  | none => text

/-- One item of a response output block (`item.type`, `item.text`); `text`
is `none` when the field is absent or not a string. -/
structure ResponseOutputItem where
  itemType : String
  text : Option String
deriving DecidableEq, Repr

/-- One block of `response.output`; `content` is `none` when
`Array.isArray(block.content)` is false. -/
structure ResponseOutputBlock where
  content : Option (List ResponseOutputItem)
deriving DecidableEq, Repr

/-- A vision-model response; `output` is `none` when
`Array.isArray(response.output)` is false. -/
structure ModelResponse where
  output : Option (List ResponseOutputBlock)
deriving DecidableEq, Repr

/-- The `segments` extraction of `summarizeImageUrl`: for every block with
an array `content`, keep the `output_text` items, trim their text
(`item?.text ?? ""`) and drop empties. -/
def responseSegments (resp : ModelResponse) : List String :=
  (resp.output.getD []).flatMap fun block =>
    ((block.content.getD []).filter
        (fun item => item.itemType == "output_text")).filterMap fun item =>
      let t := jsTrim (item.text.getD "")
      if t = "" then none else some t

/-- `raw = segments.join(" ").trim()`. -/
def rawTextOf (resp : ModelResponse) : String :=
  jsTrim (String.intercalate " " (responseSegments resp))

/-- `summarizeImageUrl`, with the transport (the OpenAI call, which may
fail) and the JS `JSON.parse` (which may reject the candidate) abstracted
as parameters.  Every failure path of the source returns `none`; the
success path returns the normalized parse of the extracted JSON candidate. -/
def summarizeImageUrlModel (jsonParse : String → Option StructuredSummary)
    (imageUrl : String) (transport : Except Unit ModelResponse) :
    Option StructuredSummary :=
  if imageUrl = "" then none
  else
    match transport with
    | .error _ => none
    | .ok resp =>
      let raw := rawTextOf resp
      if raw = "" then none
      else
        let candidate := extractJson raw
        match jsonParse candidate with
        | none => none
        | some parsed => some (normalizeSummary parsed)

/-! ## Agent input items (@openai/agents message shapes) -/

/-- Role of an `AgentInputItem`. -/
inductive Role
  | user
  | assistant
deriving DecidableEq, Repr

/-- One content part of an `AgentInputItem`: `input_text`, `output_text`
or `input_image` (carrying a URL or data URL). -/
inductive InputContentPart
  | inputText (text : String)
  | outputText (text : String)
  | inputImage (image : String)
deriving DecidableEq, Repr

/-- An `AgentInputItem` as constructed by `ClaraAgent` (`type: "message"`
throughout; `status` present only on assistant items). -/
structure AgentInputItem where
  role : Role
  status : Option String
  content : List InputContentPart
deriving DecidableEq, Repr

/-- `HISTORY_LIMIT = 15`. -/
def HISTORY_LIMIT : Nat := 15

/-- `DEFAULT_MODEL = process.env.OPENAI_AGENT_MODEL ?? "gpt-4o-mini"`
(modelled at the env default). -/
def DEFAULT_MODEL : String := "gpt-4o-mini"

/-- `ClaraAgent.toUserItem`. -/
def toUserItem (content : String) : AgentInputItem :=
  { role := .user, status := none, content := [.inputText content] }

/-- `ClaraAgent.toAssistantItem` (`status: "completed"`). -/
def toAssistantItem (content : String) : AgentInputItem :=
  { role := .assistant, status := some "completed",
    content := [.outputText content] }

/-- The per-message turn of `buildHistory`: AI-authored messages become
assistant items, all others user items. -/
def messageTurn (msg : Message) : AgentInputItem :=
  if msg.senderType = .AI then toAssistantItem msg.content else toUserItem msg.content

/-! ## MessageRepository.getLastMessages (conversation.schema.ts) -/

/-- The `orderBy: createdAt desc` relation used by the repository query. -/
def createdDesc (a b : Message) : Prop := b.createdAt ≤ a.createdAt

instance : DecidableRel createdDesc :=
  fun a b => inferInstanceAs (Decidable (b.createdAt ≤ a.createdAt))

instance : IsTotal Message createdDesc :=
  ⟨fun a b => Nat.le_total b.createdAt a.createdAt⟩

instance : IsTrans Message createdDesc :=
  ⟨fun _ _ _ hab hbc => Nat.le_trans hbc hab⟩

/-- `getLastMessages(conversationId, count)`: the database rows of the
conversation whose status is not `DELETED`, ordered by `createdAt`
descending, limited to `count`, then reversed into chronological order.
The database table is passed as the explicit row list `db`. -/
def getLastMessages (db : List Message) (conversationId : String) (count : Nat) :
    List Message :=
  (((db.filter fun m =>
        m.conversationId == conversationId && !(m.status == .DELETED)).insertionSort
      createdDesc).take count).reverse

/-! ## ClaraAgent (unnamed part_003, first revision): history with image
summaries and technician profile -/

/-- The technician profile selected by `getTechnicianProfile`. -/
structure TechnicianProfile where
  firstName : Option String
  lastName : Option String
  role : Option String
deriving DecidableEq, Repr

/-- JS template interpolation of a possibly-null value. -/
def jsShow (o : Option String) : String :=
  match o with
  | some s => s
  | none => "null"

/-- `ClaraAgent.toTechnicianContextItem`. -/
def toTechnicianContextItem (p : TechnicianProfile) : AgentInputItem :=
  { role := .assistant, status := some "completed",
    content := [.outputText
      ("\n    # TECHNICIAN DETAILS\n    - First Name: " ++ jsShow p.firstName ++
        "\n    - Last Name: " ++ jsShow p.lastName ++
        "\n    - Role: " ++ jsShow p.role ++ "\n    ")] }

/-- JS string truthiness for an optional string field. -/
def strTruthy (o : Option String) : Bool :=
  !(o.getD "" == "")

/-- `ClaraAgent.formatImageSummary`: build the compact one-line rendering,
omitting absent or empty fields, and join the parts with spaces. -/
def formatImageSummary (s : ImageSummaryMeta) : String :=
  let idStr :=
    ((s.attachmentId.or s.imageFileId).or s.image_id).getD "image"
  let parts : List String :=
    ["Image summary (" ++ idStr ++ "):"] ++
    (if strTruthy s.summary then [s.summary.getD ""] else []) ++
    (match s.objects with
      | some (o :: os) => ["Objects: " ++ String.intercalate ", " (o :: os)]
      | _ => []) ++
    (match s.observations with
      | some (o :: os) => ["Observations: " ++ String.intercalate "; " (o :: os)]
      | _ => []) ++
    (if strTruthy s.inferred_issue then
      ["Inferred issue: " ++ s.inferred_issue.getD ""] else []) ++
    (match s.linked_entities with
      | some (e :: es) => ["Linked entities: " ++ String.intercalate ", " (e :: es)]
      | _ => [])
  String.intercalate " " parts

/-- `ClaraAgent.toImageSummaryItems`: each stored summary becomes a
completed assistant message item. -/
def toImageSummaryItems (msg : Message) : List AgentInputItem :=
  (msg.metadata.imageSummaries.getD []).map fun s =>
    { role := .assistant, status := some "completed",
      content := [.outputText (formatImageSummary s)] }

/-- The body of `buildHistory`'s message loop: for each fetched message,
push its image-summary items and then its own turn. -/
def historyOfMessages : List Message → List AgentInputItem
  | [] => []
  | msg :: rest =>
    toImageSummaryItems msg ++ (messageTurn msg :: historyOfMessages rest)

/-- `ClaraAgent.buildHistory` (part_003 revision): optional technician
profile head, then the recent messages with their image-summary turns. -/
def buildHistory (db : List Message) (profile : Option TechnicianProfile)
    (conversationId : String) : List AgentInputItem :=
  let recent := getLastMessages db conversationId HISTORY_LIMIT
  (match profile with
    | some p => [toTechnicianContextItem p]
    | none => []) ++ historyOfMessages recent

/-- Each turn of `historyOfMessages` paired with the `createdAt` of the
message it was derived from. -/
def historyWithTimes : List Message → List (AgentInputItem × Nat)
  | [] => []
  | msg :: rest =>
    (toImageSummaryItems msg).map (fun it => (it, msg.createdAt)) ++
      ((messageTurn msg, msg.createdAt) :: historyWithTimes rest)

/-! ## guardrailAgent.ts -/

/-- The classifier output schema (`isFieldServiceQuestion`, `reasoning`);
the boolean is `Option` so that an absent field is representable (the
claims quantify over malformed classifier output). -/
structure GuardrailClassification where
  isFieldServiceQuestion : Option Bool
  reasoning : Option String
deriving DecidableEq, Repr

/-- The `outputInfo` object built by the guardrail
(`{ ...result.finalOutput, guidance }`). -/
structure GuardrailOutputInfo where
  classification : Option GuardrailClassification
  guidance : String
deriving DecidableEq, Repr

/-- The value returned by `fieldServiceQuestionGuardrail.execute`. -/
structure GuardrailFunctionOutput where
  outputInfo : GuardrailOutputInfo
  tripwireTriggered : Bool
deriving DecidableEq, Repr

/-- The fixed `playfulGuidance` rotation of deflection strings. -/
def playfulGuidance : List String :=
  ["I’m on the clock for HVAC, plumbing, or electrical—got any leaky pipes or noisy vents for me?",
   "I’m a field service brain. Ask me about gear, not geopolitics.",
   "Happy to help with tools and troubleshooting—what’s the issue in front of you?",
   "Nice try champ, let\x27s focus on the job at the hand first."]

/-- The `??` fallback of the guidance selection. -/
def guardrailFallbackGuidance : String :=
  "I’m focused on field service (HVAC, plumbing, electrical, fire protection, job context). Please ask something related to the job or equipment you’re working on."

/-- `fieldServiceQuestionGuardrail.execute`: the classifier run result is
`finalOutput` (absent on a failed classification); `randomIdx` is
`Math.floor(Math.random() * playfulGuidance.length)`.  The tripwire fires
exactly when `result.finalOutput?.isFieldServiceQuestion ?? false` is
false. -/
def fieldServiceGuardrailExecute (finalOutput : Option GuardrailClassification)
    (randomIdx : Nat) : GuardrailFunctionOutput :=
  let isFieldService := (finalOutput.bind (·.isFieldServiceQuestion)).getD false
  let guidance := (playfulGuidance.get? randomIdx).getD guardrailFallbackGuidance
  { outputInfo := { classification := finalOutput, guidance := guidance }
    tripwireTriggered := !isFieldService }

/-! ## ClaraAgent.runAgent: the streamed event loop -/

/-- The payload of a `raw_model_stream_event` as probed by the loop
(`data?.type`, `data?.delta`, `data?.text`). -/
structure RawModelData where
  dataType : Option String
  delta : Option String
  text : Option String
deriving DecidableEq, Repr

/-- One content part of a completed assistant `rawItem`
(`c?.type`, `c.text`; `text` is `none` when absent or not a string). -/
structure RawContentPart where
  partType : String
  text : Option String
deriving DecidableEq, Repr

/-- The `rawItem` of a `run_item_stream_event`; `content` is `none` when
`Array.isArray(rawItem.content)` is false. -/
structure RawItem where
  itemType : Option String
  name : Option String
  itemRole : Option String
  content : Option (List RawContentPart)
deriving DecidableEq, Repr

/-- One event of the generation capability's stream. -/
inductive StreamEvent
  | rawModelStreamEvent (data : Option RawModelData)
  | runItemStreamEvent (rawItem : Option RawItem)
  | otherEvent
deriving DecidableEq, Repr

/-- A caller callback invocation recorded in order. -/
inductive CallbackEvent
  | onThinking
  | onTextChunk (chunk : String) (fullText : String)
  | onToolCall (toolName : String)
  | onComplete
  | onError
deriving DecidableEq, Repr

/-- The loop accumulator: `fullText` and the (not yet deduplicated)
`toolsUsed` push list. -/
structure LoopState where
  fullText : String
  toolsUsed : List String
deriving DecidableEq, Repr

/-- Whether a `rawItem` is a tool invocation
(`type === "hosted_tool_call" || type === "function_call"`). -/
def isToolItem (ri : RawItem) : Bool :=
  ri.itemType == some "hosted_tool_call" || ri.itemType == some "function_call"

/-- `rawItem.name ?? rawItem.type ?? "tool_call"`. -/
def toolNameOf (ri : RawItem) : String :=
  (ri.name.or ri.itemType).getD "tool_call"

/-- The `output_text` join of a completed assistant item's content. -/
def assistantTextOf (ri : RawItem) : String :=
  String.join
    (((ri.content.getD []).filter fun c =>
        c.partType == "output_text" && c.text.isSome).map fun c => c.text.getD "")

/-- One iteration of the `for await (const event of stream)` loop,
returning the updated state and the callbacks invoked. -/
def stepEvent (st : LoopState) (e : StreamEvent) : LoopState × List CallbackEvent :=
  match e with
  | .rawModelStreamEvent data =>
    let delta := ((data.bind (·.delta)).or (data.bind (·.text))).getD ""
    let isTextDelta := data.bind (·.dataType) == some "output_text_delta"
    if isTextDelta && !(delta == "") then
      ({ st with fullText := st.fullText ++ delta },
        [.onTextChunk delta (st.fullText ++ delta)])
    else (st, [])
  | .runItemStreamEvent rawItem =>
    match rawItem with
    | none => (st, [])
    | some ri =>
      let (st₁, cbs₁) :=
        if isToolItem ri then
          ({ st with toolsUsed := st.toolsUsed ++ [toolNameOf ri] },
            [CallbackEvent.onToolCall (toolNameOf ri)])
        else (st, [])
      if ri.itemType == some "message" && ri.itemRole == some "assistant" then
        let assistantText := assistantTextOf ri
        if !(assistantText == "") && st₁.fullText == "" then
          ({ st₁ with fullText := assistantText }, cbs₁)
        else (st₁, cbs₁)
      else (st₁, cbs₁)
  | .otherEvent => (st, [])

/-- The whole event loop. -/
def processEvents : LoopState → List StreamEvent → LoopState × List CallbackEvent
  | st, [] => (st, [])
  | st, e :: rest =>
    let (st₁, cbs) := stepEvent st e
    let (stF, cbsRest) := processEvents st₁ rest
    (stF, cbs ++ cbsRest)

/-- The tool names reported by the stream, in order and with multiplicity. -/
def reportedToolNames : List StreamEvent → List String
  | [] => []
  | .runItemStreamEvent (some ri) :: rest =>
    if isToolItem ri then toolNameOf ri :: reportedToolNames rest
    else reportedToolNames rest
  | _ :: rest => reportedToolNames rest

/-- `Array.from(new Set(xs))`: deduplication keeping the first occurrence
of each element, in insertion order. -/
def jsSetDedup : List String → List String
  | [] => []
  | x :: xs => x :: jsSetDedup (xs.filter fun y => !(y == x))
termination_by l => l.length
decreasing_by
  simp only [List.length_cons]
  exact Nat.lt_succ_of_le (List.length_filter_le _ _)

/-- The response metadata (`model`, deduplicated `toolsUsed`,
`durationMs`). -/
structure ResponseMetadata where
  model : String
  toolsUsed : List String
  durationMs : Nat
deriving DecidableEq, Repr

/-- `AgentResponse`; `metadata` is absent on the guardrail branch. -/
structure AgentResponse where
  messageId : String
  content : String
  metadata : Option ResponseMetadata
deriving DecidableEq, Repr

/-- The observable outcome of the external `run(agent, input, ...)` call:
a consumed stream with its `finalOutput`, the distinguished
`InputGuardrailTripwireTriggered` signal carrying the guardrail's output,
or any other failure. -/
inductive RunOutcome
  | stream (events : List StreamEvent) (finalOutput : Option String)
  | tripwire (guardrailOutput : GuardrailFunctionOutput)
  | failure
deriving Repr

/-- `ClaraAgent.runAgent` after the external call resolved to `outcome`:
consume the events, prefer a nonempty string `finalOutput`, package the
response and the callback trace; on a guardrail tripwire return the
guidance with no metadata; on any other error invoke `onError` and
rethrow.  `startTime`/`endTime` model the two `Date.now()` reads. -/
def runAgentModel (outcome : RunOutcome) (startTime endTime : Nat) :
    Except Unit AgentResponse × List CallbackEvent :=
  match outcome with
  | .stream events finalOut =>
    let (st, trace) := processEvents { fullText := "", toolsUsed := [] } events
    let finalOutput :=
      match finalOut with
      | some s => if s.length > 0 then s else st.fullText
      | none => st.fullText
    let response : AgentResponse :=
      { messageId := "msg-" ++ toString endTime
        content := finalOutput
        metadata := some { model := DEFAULT_MODEL
                           toolsUsed := jsSetDedup st.toolsUsed
                           durationMs := endTime - startTime } }
    (.ok response, .onThinking :: (trace ++ [.onComplete]))
  | .tripwire g =>
    (.ok { messageId := "guardrail-" ++ toString endTime
           content := g.outputInfo.guidance
           metadata := none },
      [.onThinking])
  | .failure => (.error (), [.onThinking, .onError])

/-- The composed turn under the agents runtime's documented blocking
input-guardrail contract (`runInParallel: false`): the guardrail executes
first; when its tripwire fires the runtime raises
`InputGuardrailTripwireTriggered` carrying the guardrail output and the
model stream is never consumed; otherwise the stream runs. -/
def runWithGuardrail (finalOutput : Option GuardrailClassification)
    (randomIdx : Nat) (events : List StreamEvent) (streamFinal : Option String)
    (startTime endTime : Nat) : Except Unit AgentResponse × List CallbackEvent :=
  let g := fieldServiceGuardrailExecute finalOutput randomIdx
  if g.tripwireTriggered then runAgentModel (.tripwire g) startTime endTime
  else runAgentModel (.stream events streamFinal) startTime endTime

/-! ## Vision-turn input construction

The repository carries two revisions of `ClaraAgent`.  In the unnamed
part_003 revision, `processMessageWithImages` builds the input from the
single user turn only (the history line is commented out) and
`processVisionQuestion` delegates to it.  In `src/agent/ClaraAgent.ts`,
`processMessageWithImages` prepends `buildHistory` (that revision's
`buildHistory` maps the recent messages to turns without image-summary
expansion) and `processVisionQuestion` delegates to `processMessage`.
Both functions below return the `AgentInputItem` list handed to
`runAgent`, or the thrown validation error. -/

/-- part_003 `processMessageWithImages`: filter falsy entries, trim, drop
empties; throw on empty text or no valid image URL; the input is the one
user message (text part followed by the image parts). -/
def processMessageWithImagesInput (text : String) (images : List String) :
    Except String (List AgentInputItem) :=
  if jsTrim text = "" then .error "Empty message"
  else
    let imageItems :=
      (((images.filter fun u => !(u == "")).map jsTrim).filter
          fun u => u.length > 0).map InputContentPart.inputImage
    if imageItems.isEmpty then .error "No valid image URLs provided"
    else
      .ok [{ role := .user, status := none,
             content := .inputText text :: imageItems }]

/-- part_003 `processVisionQuestion` reuses the image-aware path. -/
def processVisionQuestionInput (question : String) (imageUrls : List String) :
    Except String (List AgentInputItem) :=
  processMessageWithImagesInput question imageUrls

/-- Inline image input of the `src/agent/ClaraAgent.ts` revision. -/
structure InlineImageInput where
  data : String
  mimeType : Option String
deriving DecidableEq, Repr

/-- `src/agent/ClaraAgent.ts` `buildHistory`: recent messages mapped to
turns (no technician profile, no image-summary expansion). -/
def buildHistorySrc (db : List Message) (conversationId : String) :
    List AgentInputItem :=
  (getLastMessages db conversationId HISTORY_LIMIT).map messageTurn

/-- `src/agent/ClaraAgent.ts` `toUserItemWithImages`: inline data is
wrapped into a data URL unless it already carries a `data:` scheme. -/
def toUserItemWithImagesSrc (content : String) (images : List InlineImageInput) :
    AgentInputItem :=
  { role := .user, status := none,
    content := .inputText content :: images.map fun img =>
      .inputImage
        (if jsStartsWith img.data "data:" then img.data
          else "data:" ++ (img.mimeType.getD "image/png") ++ ";base64," ++ img.data) }

/-- `src/agent/ClaraAgent.ts` `processMessageWithImages`: the input handed
to `runAgent` is the built history followed by the image-bearing user
turn. -/
def processMessageWithImagesSrcInput (db : List Message) (conversationId : String)
    (text : String) (images : List InlineImageInput) :
    Except String (List AgentInputItem) :=
  if jsTrim text = "" then .error "Empty message"
  else .ok (buildHistorySrc db conversationId ++ [toUserItemWithImagesSrc text images])

/-! ## lib/imageAccess.ts and tools/getImageTool.ts -/

/-- The image shape returned by the `get_images` tool
(`{id, url, filename?, mimeType, uploadedAt}`; `mimeType` is the raw
`att.type` on the fallback path and may be absent there). -/
structure ToolImage where
  id : String
  url : String
  filename : Option String
  mimeType : Option String
  uploadedAt : Nat
deriving DecidableEq, Repr

/-- The tool result (`{message, images}`). -/
structure ToolResult where
  message : String
  images : List ToolImage
deriving DecidableEq, Repr

/-- The `createdAt desc` relation on `image_files` rows. -/
def imageCreatedDesc (a b : ImageRecord) : Prop := b.createdAt ≤ a.createdAt

instance : DecidableRel imageCreatedDesc :=
  fun a b => inferInstanceAs (Decidable (b.createdAt ≤ a.createdAt))

instance : IsTotal ImageRecord imageCreatedDesc :=
  ⟨fun a b => Nat.le_total b.createdAt a.createdAt⟩

instance : IsTrans ImageRecord imageCreatedDesc :=
  ⟨fun _ _ _ hab hbc => Nat.le_trans hbc hab⟩

/-- `getRecentImagesWithPresignedUrls`: `image_files` rows of the
conversation, most recent first, limited (`options.limit ?? 4`), each key
signed with `options.expiresInSeconds ?? 900`. -/
def getRecentImagesWithPresignedUrls (sign : String → ℚ → String)
    (configuredTtl : JsNum) (imageFiles : List ImageRecord)
    (conversationId : String) (limit : Option Nat) (expiresInSeconds : Option ℚ) :
    List ToolImage :=
  (((imageFiles.filter fun r => r.conversationId == conversationId).insertionSort
      imageCreatedDesc).take (limit.getD 4)).map fun rec =>
    { id := rec.id
      url := getPresignedUrlForKeyModel sign configuredTtl rec.s3Key
          (some (.num (expiresInSeconds.getD 900)))
      filename := rec.filename
      mimeType := some rec.mimeType
      uploadedAt := rec.createdAt }

/-- `att?.metadata?.s3Key`. -/
def attS3Key (att : Attachment) : Option String :=
  att.metadata.bind (·.s3Key)

/-- The fallback loop body of the `get_images` tool for one attachment:
a truthy `s3Key` is always re-signed (with the default TTL); otherwise a
truthy `att.url` is passed through unmodified; otherwise the attachment is
skipped. -/
def fallbackAttachmentImage (sign : String → ℚ → String) (configuredTtl : JsNum)
    (msgId : String) (msgCreatedAt : Nat) (att : Attachment) : Option ToolImage :=
  if strTruthy (attS3Key att) then
    some { id := (att.id.getD msgId)
           url := getPresignedUrlForKeyModel sign configuredTtl
               ((attS3Key att).getD "") none
           filename := att.filename
           mimeType := att.attType
           uploadedAt := msgCreatedAt }
  else if strTruthy att.url then
    some { id := (att.id.getD msgId)
           url := att.url.getD ""
           filename := att.filename
           mimeType := att.attType
           uploadedAt := msgCreatedAt }
  else none

/-- The fallback query of the tool: the 4 most recent `IMAGE`-typed
messages of the conversation (`orderBy createdAt desc, take 4`). -/
def recentImageMessages (messages : List Message) (conversationId : String) :
    List Message :=
  ((messages.filter fun m =>
      m.conversationId == conversationId && m.contentType == .IMAGE).insertionSort
    createdDesc).take 4

/-- The images accumulated by the fallback double loop. -/
def fallbackImages (sign : String → ℚ → String) (configuredTtl : JsNum)
    (messages : List Message) (conversationId : String) : List ToolImage :=
  (recentImageMessages messages conversationId).flatMap fun msg =>
    msg.attachments.filterMap (fallbackAttachmentImage sign configuredTtl msg.id msg.createdAt)

/-- `getImageTool.execute({conversationId})`: first the `image_files`
table, then the message-attachment fallback, then the result packaging. -/
def getImageToolExecute (sign : String → ℚ → String) (configuredTtl : JsNum)
    (imageFiles : List ImageRecord) (messages : List Message)
    (conversationId : String) : ToolResult :=
  let primary := getRecentImagesWithPresignedUrls sign configuredTtl imageFiles
      conversationId none none
  let images :=
    if primary.isEmpty then fallbackImages sign configuredTtl messages conversationId
    else primary
  if images.isEmpty then
    { message := "No images found for this conversation.", images := [] }
  else
    { message := "Fetched " ++ toString images.length ++ " image(s).",
      images := images }

/-! ## MessageRepository.createWithConversationUpdate -/

/-- The input of `MessageRepository.create*`. -/
structure CreateMessageInput where
  id : Option String
  conversationId : String
  senderType : SenderType
  senderId : Option Int
  content : String
  contentType : Option ContentType
  attachments : Option (List Attachment)
  metadata : Option MessageMetadata
deriving DecidableEq, Repr

/-- The database state the writer touches. -/
structure DbState where
  conversations : List Conversation
  messages : List Message
deriving DecidableEq, Repr

/-- Failures of the persistence layer. -/
inductive DbError
  | uniqueViolation
  | foreignKeyViolation
  | recordNotFound
deriving DecidableEq, Repr

/-- The message row `prisma.message.create` builds from the input:
defaults applied as in the source (`contentType ?? "TEXT"`,
`attachments ?? []`, `metadata ?? empty-object`); `genId` is the id generated by the
database when `data.id` is absent; `now` stamps `createdAt`. -/
def newMessageOf (genId : String) (now : Nat) (data : CreateMessageInput) : Message :=
  { id := data.id.getD genId
    conversationId := data.conversationId
    senderType := data.senderType
    content := data.content
    contentType := data.contentType.getD .TEXT
    attachments := data.attachments.getD []
    metadata := data.metadata.getD { imageSummaries := none }
    status := .PENDING
    createdAt := now }

/-- `prisma.message.create`: fails on a duplicate id or a missing parent
conversation; otherwise appends the row. -/
def prismaMessageCreate (genId : String) (now : Nat) (data : CreateMessageInput)
    (s : DbState) : Except DbError (Message × DbState) :=
  if s.messages.any fun m => m.id == data.id.getD genId then .error .uniqueViolation
  else if !(s.conversations.any fun c => c.id == data.conversationId) then
    .error .foreignKeyViolation
  else
    .ok (newMessageOf genId now data,
      { s with messages := s.messages ++ [newMessageOf genId now data] })

/-- `prisma.conversation.update({where: {id}, data: {updatedAt: new Date()}})`:
fails when the row does not exist. -/
def prismaConversationTouch (now : Nat) (conversationId : String) (s : DbState) :
    Except DbError DbState :=
  if s.conversations.any fun c => c.id == conversationId then
    .ok { s with conversations := s.conversations.map fun c =>
            if c.id == conversationId then { c with updatedAt := now } else c }
  else .error .recordNotFound

/-- `createWithConversationUpdate`: both operations run inside one
`prisma.$transaction`, so the composite commits the sequential result of
both or nothing (an error yields no new state). -/
def createWithConversationUpdate (genId : String) (now : Nat)
    (data : CreateMessageInput) (s : DbState) :
    Except DbError (Message × DbState) :=
  match prismaMessageCreate genId now data s with
  | .error e => .error e
  | .ok (msg, s₁) =>
    match prismaConversationTouch now data.conversationId s₁ with
    | .error e => .error e
    | .ok s₂ => .ok (msg, s₂)

/-- The state actually committed after a transactional call: the new state
on success, the untouched original on failure. -/
def commitState (s : DbState) (r : Except DbError (Message × DbState)) : DbState :=
  match r with
  | .ok (_, s₂) => s₂
  | .error _ => s

/-- A concrete stored image summary used to exercise the history
assembler. -/
def c1Summary : ImageSummaryMeta :=
  { attachmentId := some "att1", imageFileId := none, image_id := none,
    summary := some "Cracked pipe joint", objects := some ["pipe", "joint"],
    observations := none, inferred_issue := none, linked_entities := none }

/-- A concrete `IMAGE` message carrying `c1Summary` in its metadata. -/
def c1MsgImage : Message :=
  { id := "m1", conversationId := "c", senderType := .USER, content := "photo",
    contentType := .IMAGE, attachments := [],
    metadata := { imageSummaries := some [c1Summary] }, status := .SENT,
    createdAt := 1 }

/-- A concrete later text message in the same conversation. -/
def c1MsgText : Message :=
  { id := "m2", conversationId := "c", senderType := .AI, content := "Looks cracked",
    contentType := .TEXT, attachments := [], metadata := { imageSummaries := none },
    status := .SENT, createdAt := 2 }

/-- A concrete message table used to exercise the history assembler. -/
def c1Db : List Message := [c1MsgText, c1MsgImage]

/-- A concrete attachment carrying a storage key in its metadata. -/
def c3Att : Attachment :=
  { id := some "a1", url := none, filename := some "k1.png",
    attType := some "image/png", metadata := some { s3Key := some "uploads/k1.png" } }

/-- The oldest `IMAGE` message of the C3 conversation — the only one whose
attachment carries a storage key. -/
def c3MsgOld : Message :=
  { id := "i1", conversationId := "c", senderType := .USER, content := "",
    contentType := .IMAGE, attachments := [c3Att],
    metadata := { imageSummaries := none }, status := .SENT, createdAt := 1 }

/-- A newer `IMAGE` message with no attachments. -/
def c3MsgBare (idStr : String) (t : Nat) : Message :=
  { id := idStr, conversationId := "c", senderType := .USER, content := "",
    contentType := .IMAGE, attachments := [],
    metadata := { imageSummaries := none }, status := .SENT, createdAt := t }

/-- Five `IMAGE` messages: four recent bare ones and the keyed oldest. -/
def c3Messages : List Message :=
  [c3MsgBare "i2" 2, c3MsgBare "i3" 3, c3MsgBare "i4" 4, c3MsgBare "i5" 5, c3MsgOld]

/-- A concrete storage signing capability. -/
def c3Sign : String → ℚ → String := fun k _ => "https://signed.example/" ++ k

/-- A concrete prior message of the C4 conversation. -/
def c4Msg : Message :=
  { id := "m1", conversationId := "c", senderType := .USER, content := "hi",
    contentType := .TEXT, attachments := [], metadata := { imageSummaries := none },
    status := .SENT, createdAt := 1 }

/-- A concrete inline image input for the C4 counterexample. -/
def c4Img : InlineImageInput := { data := "data:image/png;base64,x", mimeType := none }

/-- Concrete creation input used to exercise the transactional writer. -/
def c5Data : CreateMessageInput :=
  { id := none, conversationId := "c", senderType := .USER, senderId := none,
    content := "hi", contentType := none, attachments := none, metadata := none }

/-- The message row the writer produces from `c5Data` at time 5. -/
def c5Msg : Message :=
  { id := "g", conversationId := "c", senderType := .USER, content := "hi",
    contentType := .TEXT, attachments := [], metadata := { imageSummaries := none },
    status := .PENDING, createdAt := 5 }

/-- A database state holding the parent conversation of `c5Data`. -/
def c5StateBefore : DbState :=
  { conversations := [{ id := "c", updatedAt := 0 }], messages := [] }

/-- The state after a successful transactional write of `c5Data`. -/
def c5StateAfter : DbState :=
  { conversations := [{ id := "c", updatedAt := 5 }], messages := [c5Msg] }

/-- A database state with no conversations at all. -/
def c5Empty : DbState := { conversations := [], messages := [] }

/-- The tool name carried by a callback invocation. -/
def toolCallbackName : CallbackEvent → Option String
  | .onToolCall n => some n
  | _ => none

/-- A concrete streamed `web_search` hosted-tool-call event. -/
def webSearchEvent : StreamEvent :=
  .runItemStreamEvent (some { itemType := some "hosted_tool_call",
                              name := some "web_search",
                              itemRole := none, content := none })

/-! ## Theorems -/

/-- Helper: the configured default TTL is strictly positive by
construction. -/
lemma defaultTtlModel_pos (configuredTtl : JsNum) : 0 < defaultTtlModel configuredTtl := by
  rcases configuredTtl with _ | _ | _ | q
  · norm_num [defaultTtlModel]
  · norm_num [defaultTtlModel]
  · norm_num [defaultTtlModel]
  · simp only [defaultTtlModel]
    split_ifs with h
    · exact h
    · norm_num

/-- Claim C8: the summarizer's normalization step is idempotent — applying
it to an already-normalized `StructuredSummary` yields an identical
object. -/
theorem normalizeSummary_idempotent (parsed : StructuredSummary) :
    normalizeSummary (normalizeSummary parsed) = normalizeSummary parsed := by
  simp [normalizeSummary]

/-- Claim C9: `getPresignedUrlForKey` always signs with a strictly
positive effective TTL; a non-finite or non-positive requested TTL falls
back to the configured default TTL (itself strictly positive, never zero
or negative), and a finite positive TTL is capped at the 90-day provider
hard limit. -/
theorem presigned_ttl_positive_and_capped (configuredTtl ttl : JsNum) :
    0 < defaultTtlModel configuredTtl
    ∧ 0 < safeTtlModel (defaultTtlModel configuredTtl) ttl
    ∧ (∀ sign key,
        getPresignedUrlForKeyModel sign configuredTtl key (some ttl) =
          sign (normalizeS3Key key) (safeTtlModel (defaultTtlModel configuredTtl) ttl))
    ∧ (ttl.isFinite = false →
        safeTtlModel (defaultTtlModel configuredTtl) ttl = defaultTtlModel configuredTtl)
    ∧ (∀ q : ℚ, ttl = .num q → q ≤ 0 →
        safeTtlModel (defaultTtlModel configuredTtl) ttl = defaultTtlModel configuredTtl)
    ∧ (∀ q : ℚ, ttl = .num q → 0 < q →
        safeTtlModel (defaultTtlModel configuredTtl) ttl = min q MAX_TTL ∧
          safeTtlModel (defaultTtlModel configuredTtl) ttl ≤ MAX_TTL) := by
  have hd := defaultTtlModel_pos configuredTtl
  refine ⟨hd, ?_, fun _ _ => rfl, ?_, ?_, ?_⟩
  · rcases ttl with _ | _ | _ | q
    · exact hd
    · exact hd
    · exact hd
    · simp only [safeTtlModel]
      split_ifs with h
      · exact hd
      · have hq : 0 < q := lt_of_not_le h
        have hmax : (0 : ℚ) < MAX_TTL := by norm_num [MAX_TTL]
        exact lt_min hq hmax
  · intro h
    rcases ttl with _ | _ | _ | q
    · rfl
    · rfl
    · rfl
    · simp [JsNum.isFinite] at h
  · rintro q rfl hq
    simp [safeTtlModel, hq]
  · rintro q rfl hq
    have h : ¬ q ≤ 0 := not_le.mpr hq
    constructor
    · simp [safeTtlModel, h]
    · simp [safeTtlModel, h]

/-- Witness for C9 at a concrete input: a `NaN` TTL under the default
configuration falls back to the (positive) default. -/
theorem presigned_ttl_witness :
    0 < defaultTtlModel (.num 900)
    ∧ safeTtlModel (defaultTtlModel (.num 900)) .nan = defaultTtlModel (.num 900)
    ∧ safeTtlModel (defaultTtlModel (.num 900)) (.num 100) = min 100 MAX_TTL := by
  have h := presigned_ttl_positive_and_capped (.num 900) .nan
  have h₂ := presigned_ttl_positive_and_capped (.num 900) (.num 100)
  exact ⟨h.1, h.2.2.2.1 rfl, (h₂.2.2.2.2.2 100 rfl (by norm_num)).1⟩

/-- Claim C10: when the guardrail's classifier yields no usable output
(the final output or its `isFieldServiceQuestion` field is absent),
`fieldServiceQuestionGuardrail.execute` reports a triggered tripwire: the
gate fails closed. -/
theorem guardrail_fails_closed (finalOutput : Option GuardrailClassification)
    (randomIdx : Nat)
    (h : finalOutput = none ∨ finalOutput.bind (·.isFieldServiceQuestion) = none) :
    (fieldServiceGuardrailExecute finalOutput randomIdx).tripwireTriggered = true := by
  have hb : finalOutput.bind (·.isFieldServiceQuestion) = none := by
    rcases h with h | h
    · simp [h]
    · exact h
  simp [fieldServiceGuardrailExecute, hb]

/-- Witness for C10: the guardrail trips on an entirely absent classifier
output, and on a present output whose boolean field is absent. -/
theorem guardrail_fails_closed_witness :
    (fieldServiceGuardrailExecute none 0).tripwireTriggered = true
    ∧ (fieldServiceGuardrailExecute
        (some { isFieldServiceQuestion := none, reasoning := some "r" })
        2).tripwireTriggered = true :=
  ⟨guardrail_fails_closed none 0 (Or.inl rfl),
    guardrail_fails_closed
      (some { isFieldServiceQuestion := none, reasoning := some "r" }) 2
      (Or.inr rfl)⟩

/-- Helper: a JS `array[i] ?? d` lookup lands in the array or is the
fallback. -/
lemma get?_getD_mem (l : List String) (d : String) (i : Nat) :
    (l.get? i).getD d ∈ l ++ [d] := by
  match h : l.get? i with
  | some x =>
    simp only [h, Option.getD_some, List.mem_append, List.mem_singleton]
    exact Or.inl (List.get?_mem h)
  | none => simp [h]

/-- Claim C2: when the guardrail classification result is "not relevant"
(`isFieldServiceQuestion = false`), the orchestrated run returns a
response whose content is one of the fixed deflection strings, carries no
tool metadata, and invokes no callback other than `onThinking` — in
particular no tool of the main generation capability ever runs. -/
theorem guardrail_gate_deflects (c : GuardrailClassification) (randomIdx : Nat)
    (events : List StreamEvent) (streamFinal : Option String)
    (startTime endTime : Nat)
    (h : c.isFieldServiceQuestion = some false) :
    ∃ resp : AgentResponse,
      (runWithGuardrail (some c) randomIdx events streamFinal startTime endTime).1
          = .ok resp
      ∧ resp.content ∈ playfulGuidance ++ [guardrailFallbackGuidance]
      ∧ resp.metadata = none
      ∧ (runWithGuardrail (some c) randomIdx events streamFinal startTime endTime).2
          = [CallbackEvent.onThinking] := by
  have htrip :
      (fieldServiceGuardrailExecute (some c) randomIdx).tripwireTriggered = true := by
    simp [fieldServiceGuardrailExecute, h]
  have hrun :
      runWithGuardrail (some c) randomIdx events streamFinal startTime endTime =
        runAgentModel (.tripwire (fieldServiceGuardrailExecute (some c) randomIdx))
          startTime endTime := by
    simp [runWithGuardrail, htrip]
  refine ⟨{ messageId := "guardrail-" ++ toString endTime
            content := (playfulGuidance.get? randomIdx).getD guardrailFallbackGuidance
            metadata := none }, ?_, ?_, rfl, ?_⟩
  · rw [hrun]; rfl
  · exact get?_getD_mem _ _ _
  · rw [hrun]; rfl

/-- Witness for C2: a concrete "not relevant" classification yields an
ok deflection response with no metadata and no tool callback. -/
theorem guardrail_gate_deflects_witness :
    ∃ resp : AgentResponse,
      (runWithGuardrail (some { isFieldServiceQuestion := some false, reasoning := none })
          0 [] none 0 0).1 = .ok resp
      ∧ resp.content ∈ playfulGuidance ++ [guardrailFallbackGuidance]
      ∧ resp.metadata = none
      ∧ (runWithGuardrail (some { isFieldServiceQuestion := some false, reasoning := none })
          0 [] none 0 0).2 = [CallbackEvent.onThinking] :=
  guardrail_gate_deflects { isFieldServiceQuestion := some false, reasoning := none }
    0 [] none 0 0 rfl

/-- Helper: one loop step appends exactly the tool names the event
reports. -/
lemma stepEvent_toolsUsed (st : LoopState) (e : StreamEvent) :
    (stepEvent st e).1.toolsUsed = st.toolsUsed ++ reportedToolNames [e] := by
  rcases e with data | rawItem | _
  · simp only [stepEvent, reportedToolNames]
    split_ifs <;> simp
  · rcases rawItem with _ | ri
    · simp [stepEvent, reportedToolNames]
    · by_cases hti : isToolItem ri <;>
        simp only [stepEvent, reportedToolNames, hti, if_true, if_false,
          Bool.false_eq_true] <;>
        split_ifs <;> simp_all
  · simp [stepEvent, reportedToolNames]

/-- Helper: one loop step's callbacks report exactly the event's tool
names. -/
lemma stepEvent_trace (st : LoopState) (e : StreamEvent) :
    (stepEvent st e).2.filterMap toolCallbackName = reportedToolNames [e] := by
  rcases e with data | rawItem | _
  · simp only [stepEvent, reportedToolNames]
    split_ifs <;> simp [toolCallbackName]
  · rcases rawItem with _ | ri
    · simp [stepEvent, reportedToolNames, toolCallbackName]
    · by_cases hti : isToolItem ri <;>
        simp only [stepEvent, reportedToolNames, hti, if_true, if_false,
          Bool.false_eq_true] <;>
        split_ifs <;> simp_all [toolCallbackName]
  · simp [stepEvent, reportedToolNames, toolCallbackName]

/-- Helper: reported tool names decompose eventwise. -/
lemma reportedToolNames_cons (e : StreamEvent) (rest : List StreamEvent) :
    reportedToolNames (e :: rest) = reportedToolNames [e] ++ reportedToolNames rest := by
  rcases e with data | rawItem | _
  · simp [reportedToolNames]
  · rcases rawItem with _ | ri
    · simp [reportedToolNames]
    · by_cases hti : isToolItem ri <;> simp [reportedToolNames, hti]
  · simp [reportedToolNames]

/-- Helper: the loop accumulates every reported tool name, in order and
with multiplicity (no deduplication during accumulation). -/
lemma processEvents_toolsUsed (st : LoopState) (events : List StreamEvent) :
    (processEvents st events).1.toolsUsed = st.toolsUsed ++ reportedToolNames events := by
  induction events generalizing st with
  | nil => simp [processEvents, reportedToolNames]
  | cons e rest ih =>
    have hfst : (processEvents st (e :: rest)).1 = (processEvents (stepEvent st e).1 rest).1 := by
      simp only [processEvents]
    rw [hfst, ih, stepEvent_toolsUsed, List.append_assoc, ← reportedToolNames_cons e rest]

/-- Helper: the callback trace reports every tool-call event, in order
and with multiplicity. -/
lemma processEvents_trace (st : LoopState) (events : List StreamEvent) :
    (processEvents st events).2.filterMap toolCallbackName = reportedToolNames events := by
  induction events generalizing st with
  | nil => simp [processEvents, reportedToolNames]
  | cons e rest ih =>
    have hsnd : (processEvents st (e :: rest)).2
        = (stepEvent st e).2 ++ (processEvents (stepEvent st e).1 rest).2 := by
      simp only [processEvents]
    rw [hsnd, List.filterMap_append, stepEvent_trace, ih, ← reportedToolNames_cons e rest]

/-- Helper: `Array.from(new Set(l))` preserves membership. -/
lemma mem_jsSetDedup {a : String} : ∀ {l : List String}, a ∈ jsSetDedup l ↔ a ∈ l := by
  intro l
  induction l using jsSetDedup.induct with
  | case1 => simp [jsSetDedup]
  | case2 x xs ih =>
    by_cases hax : a = x
    · subst hax; simp [jsSetDedup]
    · simp [jsSetDedup, ih, List.mem_filter, hax]

/-- Helper: `Array.from(new Set(l))` has no duplicates. -/
lemma nodup_jsSetDedup : ∀ (l : List String), (jsSetDedup l).Nodup := by
  intro l
  induction l using jsSetDedup.induct with
  | case1 => simp [jsSetDedup]
  | case2 x xs ih =>
    simp only [jsSetDedup, List.nodup_cons]
    refine ⟨?_, ih⟩
    intro hmem
    rw [mem_jsSetDedup, List.mem_filter] at hmem
    simp at hmem

/-- Claim C6: a tool name reported by any number of streamed tool-call
events within one turn appears exactly once in the response metadata's
`toolsUsed`; the accumulation itself keeps every occurrence (one
`onToolCall` callback per event) and deduplication happens only in the
final packaging. -/
theorem tools_used_deduplicated (events : List StreamEvent)
    (streamFinal : Option String) (startTime endTime : Nat) (name : String)
    (h : name ∈ reportedToolNames events) :
    ∃ resp md,
      (runAgentModel (.stream events streamFinal) startTime endTime).1 = .ok resp
      ∧ resp.metadata = some md
      ∧ md.toolsUsed = jsSetDedup (reportedToolNames events)
      ∧ md.toolsUsed.count name = 1
      ∧ (runAgentModel (.stream events streamFinal) startTime endTime).2.filterMap
            toolCallbackName = reportedToolNames events := by
  have hacc := processEvents_toolsUsed { fullText := "", toolsUsed := [] } events
  simp only [List.nil_append] at hacc
  refine ⟨_, _, rfl, rfl, ?_, ?_, ?_⟩
  · rw [hacc]
  · rw [hacc]
    exact List.count_eq_one_of_mem (nodup_jsSetDedup _) (mem_jsSetDedup.mpr h)
  · have htr := processEvents_trace { fullText := "", toolsUsed := [] } events
    simp only [runAgentModel]
    simp [toolCallbackName, htr]

/-- Witness for C6: two streamed `web_search` tool-call events yield a
metadata tool list containing `web_search` exactly once. -/
theorem tools_used_deduplicated_witness :
    ∃ resp md,
      (runAgentModel (.stream [webSearchEvent, webSearchEvent] none) 0 7).1 = .ok resp
      ∧ resp.metadata = some md
      ∧ md.toolsUsed = jsSetDedup (reportedToolNames [webSearchEvent, webSearchEvent])
      ∧ md.toolsUsed.count "web_search" = 1
      ∧ (runAgentModel (.stream [webSearchEvent, webSearchEvent] none) 0 7).2.filterMap
            toolCallbackName = reportedToolNames [webSearchEvent, webSearchEvent] :=
  tools_used_deduplicated [webSearchEvent, webSearchEvent] none 0 7 "web_search" (by decide)

/-- Helper: a successful `indexOf` splits the list at the found
character. -/
lemma idxOfChar_decomp {c : Char} :
    ∀ {l : List Char} {i : Nat}, idxOfChar c l = some i →
      ∃ pre suf, l = pre ++ c :: suf ∧ pre.length = i := by
  intro l
  induction l with
  | nil => intro i h; simp [idxOfChar] at h
  | cons x xs ih =>
    intro i h
    simp only [idxOfChar] at h
    split_ifs at h with hx
    · subst hx
      obtain rfl : (0 : Nat) = i := Option.some.inj h
      exact ⟨[], xs, rfl, rfl⟩
    · cases hj : idxOfChar c xs with
      | none => rw [hj] at h; simp at h
      | some j =>
        rw [hj] at h
        simp only [Option.map_some'] at h
        obtain rfl : j + 1 = i := Option.some.inj h
        obtain ⟨pre, suf, hl, hlen⟩ := ih hj
        exact ⟨x :: pre, suf, by simp [hl], by simp [hlen]⟩

/-- Helper: a successful `lastIndexOf` splits the list at the found
character. -/
lemma lastIdxOfChar_decomp {c : Char} {l : List Char} {i : Nat}
    (h : lastIdxOfChar c l = some i) :
    ∃ pre suf, l = pre ++ c :: suf ∧ pre.length = i := by
  unfold lastIdxOfChar at h
  cases hr : idxOfChar c l.reverse with
  | none => rw [hr] at h; simp at h
  | some r =>
    rw [hr] at h
    obtain rfl : l.length - 1 - r = i := Option.some.inj h
    obtain ⟨pre, suf, hl, hlen⟩ := idxOfChar_decomp hr
    have hrev : l = suf.reverse ++ c :: pre.reverse := by
      have h₂ := congrArg List.reverse hl
      simpa using h₂
    refine ⟨suf.reverse, pre.reverse, hrev, ?_⟩
    have hlens : l.length = pre.length + 1 + suf.length := by
      have := congrArg List.length hl
      simpa [Nat.add_comm, Nat.add_assoc, Nat.add_left_comm] using this
    simp only [List.length_reverse]
    omega

/-- Helper: `(String.mk cs).toList = cs`. -/
lemma toList_mk (cs : List Char) : (String.mk cs).toList = cs := rfl

/-- Helper: the unfolded one-step equation of `extractJson`. -/
lemma extractJson_eq (text : String) :
    extractJson text =
      match idxOfChar '{' text.toList with
      | some s =>
        match lastIdxOfChar '}' text.toList with
        | some e =>
          if s < e then String.mk ((text.toList.drop s).take (e + 1 - s)) else text
        | none => text
      | none => text := rfl

/-- Helper: the slice form of `extractJson` when both braces are found in
order. -/
lemma extractJson_slice {text : String} {s e : Nat}
    (hs : idxOfChar '{' text.toList = some s)
    (he : lastIdxOfChar '}' text.toList = some e) (hlt : s < e) :
    extractJson text = String.mk ((text.toList.drop s).take (e + 1 - s)) := by
  rw [extractJson_eq, hs, he]
  simp [hlt]

/-- Helper: the extracted JSON candidate is a contiguous substring of the
raw text. -/
lemma extractJson_isSubstring (text : String) :
    ∃ pre suf, text.toList = pre ++ (extractJson text).toList ++ suf := by
  cases hs : idxOfChar '{' text.toList with
  | none => exact ⟨[], [], by rw [extractJson_eq, hs]; simp⟩
  | some s =>
    cases he : lastIdxOfChar '}' text.toList with
    | none => exact ⟨[], [], by rw [extractJson_eq, hs, he]; simp⟩
    | some e =>
      by_cases hlt : s < e
      · refine ⟨text.toList.take s, (text.toList.drop s).drop (e + 1 - s), ?_⟩
        rw [extractJson_slice hs he hlt]
        simp only [toList_mk]
        rw [List.append_assoc, List.take_append_drop, List.take_append_drop]
      · exact ⟨[], [], by rw [extractJson_eq, hs, he]; simp [hlt]⟩

/-- Helper: when a brace-open occurs before the last brace-close, the
extracted candidate starts with the former and ends with the latter. -/
lemma extractJson_braces {text : String} {s e : Nat}
    (hs : idxOfChar '{' text.toList = some s)
    (he : lastIdxOfChar '}' text.toList = some e) (hlt : s < e) :
    (extractJson text).toList.head? = some '{' ∧
      (extractJson text).toList.getLast? = some '}' := by
  obtain ⟨preS, sufS, hlS, hlenS⟩ := idxOfChar_decomp hs
  obtain ⟨preE, sufE, hlE, hlenE⟩ := lastIdxOfChar_decomp he
  have hext : (extractJson text).toList = (text.toList.drop s).take (e + 1 - s) := by
    rw [extractJson_slice hs he hlt, toList_mk]
  constructor
  · rw [hext]
    have hdrop : text.toList.drop s = '{' :: sufS := by
      rw [hlS]
      exact List.drop_left' hlenS
    rw [hdrop]
    have hk : e + 1 - s = (e - s) + 1 := by omega
    rw [hk]
    simp
  · rw [hext, List.take_drop]
    have hn : s + (e + 1 - s) = e + 1 := by omega
    rw [hn]
    have htake : text.toList.take (e + 1) = preE ++ ['}'] := by
      rw [hlE, List.take_append_eq_append_take]
      have h₁ : (preE : List Char).take (e + 1) = preE :=
        List.take_of_length_le (by omega)
      have h₂ : e + 1 - preE.length = 1 := by omega
      rw [h₁, h₂]
      rfl
    rw [htake, List.drop_append_eq_append_drop]
    have h₃ : s - preE.length = 0 := by omega
    rw [h₃]
    simp only [List.drop_zero]
    exact List.getLast?_concat _

/-- Claim C7: `summarizeImageUrl` never raises — the empty/invalid URL,
any transport failure, empty model output and any JSON parse failure all
return `none`; when output is present the candidate handed to the JSON
parser is exactly the substring of the raw response text from its first
brace-open to its last brace-close (a contiguous substring that starts
and ends with those braces), and the parsed value is returned
normalized. -/
theorem summarize_image_never_raises (jsonParse : String → Option StructuredSummary)
    (imageUrl : String) (transport : Except Unit ModelResponse) :
    (imageUrl = "" → summarizeImageUrlModel jsonParse imageUrl transport = none)
    ∧ (∀ e, transport = .error e →
        summarizeImageUrlModel jsonParse imageUrl transport = none)
    ∧ (∀ resp, transport = .ok resp → rawTextOf resp = "" →
        summarizeImageUrlModel jsonParse imageUrl transport = none)
    ∧ (∀ resp, transport = .ok resp →
        jsonParse (extractJson (rawTextOf resp)) = none →
        summarizeImageUrlModel jsonParse imageUrl transport = none)
    ∧ (∀ resp parsed, transport = .ok resp → imageUrl ≠ "" → rawTextOf resp ≠ "" →
        jsonParse (extractJson (rawTextOf resp)) = some parsed →
        summarizeImageUrlModel jsonParse imageUrl transport =
          some (normalizeSummary parsed))
    ∧ (∀ text : String, ∃ pre suf,
        text.toList = pre ++ (extractJson text).toList ++ suf)
    ∧ (∀ (text : String) (s e : Nat), idxOfChar '{' text.toList = some s →
        lastIdxOfChar '}' text.toList = some e → s < e →
        (extractJson text).toList.head? = some '{' ∧
          (extractJson text).toList.getLast? = some '}') := by
  refine ⟨?_, ?_, ?_, ?_, ?_, fun t => extractJson_isSubstring t,
    fun t s e hs he hlt => extractJson_braces hs he hlt⟩
  · intro h
    simp [summarizeImageUrlModel, h]
  · rintro e rfl
    by_cases h : imageUrl = "" <;> simp [summarizeImageUrlModel, h]
  · rintro resp rfl hraw
    by_cases h : imageUrl = "" <;> simp [summarizeImageUrlModel, h, hraw]
  · rintro resp rfl hparse
    by_cases h : imageUrl = ""
    · simp [summarizeImageUrlModel, h]
    · by_cases hraw : rawTextOf resp = "" <;>
        simp [summarizeImageUrlModel, h, hraw, hparse]
  · rintro resp parsed rfl h hraw hparse
    simp [summarizeImageUrlModel, h, hraw, hparse]

/-- Witness for C7 at concrete inputs: a transport failure yields `none`,
and a parser that accepts the braced candidate of the raw text
a raw text with an empty braced object yields the normalized summary. -/
theorem summarize_image_never_raises_witness :
    summarizeImageUrlModel (fun _ => none) "http://img" (.error ()) = none
    ∧ summarizeImageUrlModel
        (fun c => if c = "\x7b\x7d" then
            some { source := none, summary := none, objects := none,
                   observations := none, inferred_issue := none,
                   confidence := none, linked_entities := none }
          else none)
        "http://img"
        (.ok { output := some [{ content := some [{ itemType := "output_text",
                                                    text := some "note \x7b\x7d done" }] }] })
        = some (normalizeSummary
            { source := none, summary := none, objects := none,
              observations := none, inferred_issue := none,
              confidence := none, linked_entities := none }) := by
  constructor
  · exact (summarize_image_never_raises (fun _ => none) "http://img" (.error ())).2.1 () rfl
  · exact (summarize_image_never_raises _ "http://img" _).2.2.2.2.1 _ _ rfl
      (by decide) (by decide) (by decide)

/-- Claim C5: `createWithConversationUpdate` is atomic — whenever the
composite succeeds, the committed state contains the inserted message AND
the parent conversation exists with its `updatedAt` refreshed to the
transaction time (never left stale); whenever either operation fails, the
committed state is exactly the original state (no partial message
write). -/
theorem create_with_conversation_update_atomic (genId : String) (now : Nat)
    (data : CreateMessageInput) (s : DbState) :
    (∀ msg s₂, createWithConversationUpdate genId now data s = .ok (msg, s₂) →
      msg ∈ s₂.messages ∧ msg.conversationId = data.conversationId ∧
        s₂.messages = s.messages ++ [msg] ∧
        (∃ c ∈ s₂.conversations, c.id = data.conversationId ∧ c.updatedAt = now) ∧
        ∀ c ∈ s₂.conversations, c.id = data.conversationId → c.updatedAt = now)
    ∧ (∀ e, createWithConversationUpdate genId now data s = .error e →
        commitState s (createWithConversationUpdate genId now data s) = s) := by
  constructor
  · intro msg s₂ h
    unfold createWithConversationUpdate at h
    cases hc : prismaMessageCreate genId now data s with
    | error e => rw [hc] at h; exact absurd h (by simp)
    | ok p =>
      obtain ⟨msg₁, s₁⟩ := p
      rw [hc] at h
      dsimp only at h
      cases ht : prismaConversationTouch now data.conversationId s₁ with
      | error e => rw [ht] at h; exact absurd h (by simp)
      | ok s₂x =>
        rw [ht] at h
        dsimp only at h
        obtain ⟨rfl, rfl⟩ : msg₁ = msg ∧ s₂x = s₂ := by
          have h₀ := Except.ok.inj h
          exact ⟨congrArg Prod.fst h₀, congrArg Prod.snd h₀⟩
        unfold prismaMessageCreate at hc
        cases hdup : s.messages.any fun m => m.id == data.id.getD genId with
        | true => rw [hdup] at hc; simp at hc
        | false =>
          rw [hdup] at hc
          cases hcv : s.conversations.any fun c => c.id == data.conversationId with
          | false => rw [hcv] at hc; simp at hc
          | true =>
            rw [hcv] at hc
            simp only [Bool.not_true, Bool.false_eq_true, if_false,
              Except.ok.injEq, Prod.mk.injEq] at hc
            obtain ⟨hmsg, hs₁⟩ := hc
            unfold prismaConversationTouch at ht
            cases hcv₁ : s₁.conversations.any fun c => c.id == data.conversationId with
            | false =>
              rw [hcv₁] at ht
              simp at ht
            | true =>
              rw [hcv₁] at ht
              simp only [if_true, Except.ok.injEq] at ht
              obtain ⟨c₀, hc₀, hid₀⟩ :
                  ∃ c ∈ s.conversations, (c.id == data.conversationId) = true := by
                simpa [List.any_eq_true] using hcv
              have hconvId : msg₁.conversationId = data.conversationId := by
                rw [← hmsg]; rfl
              have hs₂conv : s₂x.conversations = s.conversations.map fun c =>
                  if c.id == data.conversationId then { c with updatedAt := now } else c := by
                rw [← ht]
                dsimp only
                rw [← hs₁]
              have hs₂msgs : s₂x.messages = s.messages ++ [msg₁] := by
                rw [← ht]
                dsimp only
                rw [← hs₁, hmsg]
              refine ⟨?_, hconvId, hs₂msgs, ?_, ?_⟩
              · rw [hs₂msgs]; simp
              · refine ⟨{ c₀ with updatedAt := now }, ?_, ?_, rfl⟩
                · rw [hs₂conv]
                  simp only [List.mem_map]
                  exact ⟨c₀, hc₀, by simp [hid₀]⟩
                · simpa using hid₀
              · intro c hcmem hcid
                rw [hs₂conv] at hcmem
                simp only [List.mem_map] at hcmem
                obtain ⟨c₁, hc₁, hc₁eq⟩ := hcmem
                by_cases hb : (c₁.id == data.conversationId) = true
                · rw [← hc₁eq]
                  simp [hb]
                · exfalso
                  rw [← hc₁eq] at hcid
                  simp [hb] at hcid
                  exact hb (by simp [hcid])
  · intro e h
    unfold commitState
    rw [h]

/-- Witness for C5 at concrete inputs: with the parent conversation
present the write succeeds, inserting the message and bumping the
conversation's `updatedAt`; with no conversations the composite fails and
commits nothing. -/
theorem create_with_conversation_update_witness :
    (c5Msg ∈ c5StateAfter.messages
      ∧ (∀ c ∈ c5StateAfter.conversations, c.id = "c" → c.updatedAt = 5))
    ∧ commitState c5Empty (createWithConversationUpdate "g" 5 c5Data c5Empty) = c5Empty := by
  have h₁ := (create_with_conversation_update_atomic "g" 5 c5Data c5StateBefore).1
    c5Msg c5StateAfter (by rfl)
  have h₂ := (create_with_conversation_update_atomic "g" 5 c5Data c5Empty).2
    .foreignKeyViolation (by rfl)
  exact ⟨⟨h₁.1, h₁.2.2.2.2⟩, h₂⟩

/-- Helper: `getLastMessages` returns its rows in chronological
(oldest-first) order. -/
lemma getLastMessages_chronological (db : List Message) (cid : String) (n : Nat) :
    (getLastMessages db cid n).Pairwise fun a b => a.createdAt ≤ b.createdAt := by
  unfold getLastMessages
  rw [List.pairwise_reverse]
  exact List.Pairwise.sublist (List.take_sublist _ _)
    (List.sorted_insertionSort createdDesc _)

/-- Helper: every row `getLastMessages` returns belongs to the
conversation, is not deleted, and comes from the table. -/
lemma getLastMessages_mem {db : List Message} {cid : String} {n : Nat} {m : Message}
    (h : m ∈ getLastMessages db cid n) :
    m ∈ db ∧ m.conversationId = cid ∧ m.status ≠ .DELETED := by
  unfold getLastMessages at h
  rw [List.mem_reverse] at h
  have h₂ := (List.take_sublist _ _).subset h
  have h₃ := (List.perm_insertionSort createdDesc _).subset h₂
  rw [List.mem_filter] at h₃
  obtain ⟨hdb, hcond⟩ := h₃
  simp only [Bool.and_eq_true, beq_iff_eq, Bool.not_eq_true', beq_eq_false_iff_ne,
    ne_eq] at hcond
  exact ⟨hdb, hcond.1, hcond.2⟩

/-- Helper: `getLastMessages` keeps the most recent rows — any eligible row
it leaves out is no newer than every row it returns. -/
lemma getLastMessages_most_recent {db : List Message} {cid : String} {n : Nat}
    {m : Message} (hdb : m ∈ db) (hcid : m.conversationId = cid)
    (hdel : m.status ≠ .DELETED) (hnot : m ∉ getLastMessages db cid n) :
    ∀ r ∈ getLastMessages db cid n, m.createdAt ≤ r.createdAt := by
  intro r hr
  have hmf : m ∈ db.filter fun x =>
      x.conversationId == cid && !(x.status == MessageStatus.DELETED) := by
    rw [List.mem_filter]
    refine ⟨hdb, ?_⟩
    simp only [Bool.and_eq_true, beq_iff_eq, Bool.not_eq_true', beq_eq_false_iff_ne,
      ne_eq]
    exact ⟨hcid, hdel⟩
  have hms : m ∈ (db.filter fun x =>
      x.conversationId == cid && !(x.status == MessageStatus.DELETED)).insertionSort
        createdDesc :=
    (List.perm_insertionSort createdDesc _).symm.subset hmf
  have hsplit := List.take_append_drop n ((db.filter fun x =>
      x.conversationId == cid && !(x.status == MessageStatus.DELETED)).insertionSort
        createdDesc)
  have hp : (((db.filter fun x =>
      x.conversationId == cid && !(x.status == MessageStatus.DELETED)).insertionSort
        createdDesc).take n ++ ((db.filter fun x =>
      x.conversationId == cid && !(x.status == MessageStatus.DELETED)).insertionSort
        createdDesc).drop n).Pairwise createdDesc := by
    rw [hsplit]
    exact List.sorted_insertionSort createdDesc _
  rw [← hsplit, List.mem_append] at hms
  rcases hms with hin | hin
  · exact absurd (by rw [getLastMessages, List.mem_reverse]; exact hin) hnot
  · rw [List.pairwise_append] at hp
    have hrtake : r ∈ ((db.filter fun x =>
        x.conversationId == cid && !(x.status == MessageStatus.DELETED)).insertionSort
          createdDesc).take n := by
      rw [getLastMessages, List.mem_reverse] at hr
      exact hr
    exact hp.2.2 r hrtake m hin

/-- Helper: dropping the timestamps from `historyWithTimes` gives exactly
the assembled history turns. -/
lemma historyWithTimes_fst : ∀ l : List Message,
    (historyWithTimes l).map Prod.fst = historyOfMessages l := by
  intro l
  induction l with
  | nil => rfl
  | cons m rest ih =>
    simp [historyWithTimes, historyOfMessages, ih, List.map_map, Function.comp_def]

/-- Helper: every timestamp attached by `historyWithTimes` is the creation
time of one of the messages. -/
lemma historyWithTimes_snd_mem : ∀ {l : List Message} {x : Nat},
    x ∈ (historyWithTimes l).map Prod.snd → ∃ m ∈ l, x = m.createdAt := by
  intro l
  induction l with
  | nil => intro x h; simp [historyWithTimes] at h
  | cons m rest ih =>
    intro x h
    simp only [historyWithTimes, List.map_append, List.mem_append, List.map_cons,
      List.mem_cons, List.map_map] at h
    rcases h with h | h | h
    · simp only [List.mem_map, Function.comp] at h
      obtain ⟨_, _, rfl⟩ := h
      exact ⟨m, by simp, rfl⟩
    · exact ⟨m, by simp, h⟩
    · obtain ⟨m₁, hm₁, hx⟩ := ih h
      exact ⟨m₁, by simp [hm₁], hx⟩

/-- Helper: a list in which every pair is related is pairwise related. -/
lemma pairwise_of_total {α : Type} {R : α → α → Prop} (h : ∀ a b, R a b) :
    ∀ l : List α, l.Pairwise R := by
  intro l
  induction l with
  | nil => exact List.Pairwise.nil
  | cons x xs ih => exact List.Pairwise.cons (fun b _ => h x b) ih

/-- Helper: for chronologically sorted messages the attached turn
timestamps are non-decreasing. -/
lemma historyWithTimes_snd_sorted : ∀ {l : List Message},
    (l.Pairwise fun a b => a.createdAt ≤ b.createdAt) →
    ((historyWithTimes l).map Prod.snd).Pairwise (· ≤ ·) := by
  intro l
  induction l with
  | nil => intro _; simp [historyWithTimes]
  | cons m rest ih =>
    intro h
    rw [List.pairwise_cons] at h
    obtain ⟨hhead, htail⟩ := h
    simp only [historyWithTimes, List.map_append, List.map_cons, List.map_map]
    rw [List.pairwise_append]
    refine ⟨?_, ?_, ?_⟩
    · rw [List.pairwise_map]
      exact pairwise_of_total (fun _ _ => le_refl _) _
    · rw [List.pairwise_cons]
      refine ⟨?_, ih htail⟩
      intro x hx
      obtain ⟨m₁, hm₁, rfl⟩ := historyWithTimes_snd_mem hx
      exact hhead m₁ hm₁
    · intro a ha b hb
      simp only [List.mem_map, Function.comp] at ha
      obtain ⟨_, _, rfl⟩ := ha
      rcases List.mem_cons.mp hb with rfl | hb
      · exact le_refl _
      · obtain ⟨m₁, hm₁, rfl⟩ := historyWithTimes_snd_mem hb
        exact hhead m₁ hm₁

/-- Helper: every fetched message's summary turns sit immediately before
its own turn inside the assembled history. -/
lemma historyOfMessages_decomp : ∀ {l : List Message} {m : Message}, m ∈ l →
    ∃ pre post, historyOfMessages l =
      pre ++ (toImageSummaryItems m ++ [messageTurn m]) ++ post := by
  intro l
  induction l with
  | nil => intro m h; simp at h
  | cons x rest ih =>
    intro m h
    rcases List.mem_cons.mp h with rfl | h₁
    · refine ⟨[], historyOfMessages rest, ?_⟩
      simp [historyOfMessages]
    · obtain ⟨pre, post, heq⟩ := ih h₁
      refine ⟨toImageSummaryItems x ++ [messageTurn x] ++ pre, post, ?_⟩
      simp only [historyOfMessages, heq]
      simp

/-- Helper: every expanded image-summary turn is assistant-authored. -/
lemma toImageSummaryItems_roles (m : Message) :
    ∀ item ∈ toImageSummaryItems m, item.role = .assistant := by
  intro item h
  unfold toImageSummaryItems at h
  simp only [List.mem_map] at h
  obtain ⟨s, _, rfl⟩ := h
  rfl

/-- Claim C1: `buildHistory` returns the most recent non-deleted messages
of the conversation in chronological (oldest-first) order; each stored
image summary expands to an assistant-authored turn placed immediately
before the owning message's own turn, and the per-turn owning-message
creation times are non-decreasing across the whole assembled history. -/
theorem buildHistory_ordering (db : List Message) (profile : Option TechnicianProfile)
    (conversationId : String) :
    (∀ m ∈ getLastMessages db conversationId HISTORY_LIMIT,
        m ∈ db ∧ m.conversationId = conversationId ∧ m.status ≠ .DELETED)
    ∧ (getLastMessages db conversationId HISTORY_LIMIT).Pairwise
        (fun a b => a.createdAt ≤ b.createdAt)
    ∧ (∀ m ∈ db, m.conversationId = conversationId → m.status ≠ .DELETED →
        m ∉ getLastMessages db conversationId HISTORY_LIMIT →
        ∀ r ∈ getLastMessages db conversationId HISTORY_LIMIT,
          m.createdAt ≤ r.createdAt)
    ∧ buildHistory db profile conversationId =
        (match profile with
          | some p => [toTechnicianContextItem p]
          | none => []) ++
          (historyWithTimes (getLastMessages db conversationId HISTORY_LIMIT)).map
            Prod.fst
    ∧ (∀ m ∈ getLastMessages db conversationId HISTORY_LIMIT,
        (∀ item ∈ toImageSummaryItems m, item.role = .assistant) ∧
        ∃ pre post,
          historyOfMessages (getLastMessages db conversationId HISTORY_LIMIT) =
            pre ++ (toImageSummaryItems m ++ [messageTurn m]) ++ post)
    ∧ ((historyWithTimes (getLastMessages db conversationId HISTORY_LIMIT)).map
        Prod.snd).Pairwise (· ≤ ·) := by
  refine ⟨?_, getLastMessages_chronological db conversationId HISTORY_LIMIT, ?_, ?_,
    ?_, ?_⟩
  · intro m hm
    exact getLastMessages_mem hm
  · intro m hm hcid hdel hnot
    exact getLastMessages_most_recent hm hcid hdel hnot
  · rw [historyWithTimes_fst]
    rfl
  · intro m hm
    exact ⟨toImageSummaryItems_roles m, historyOfMessages_decomp hm⟩
  · exact historyWithTimes_snd_sorted
      (getLastMessages_chronological db conversationId HISTORY_LIMIT)

/-- Witness for C1 at a concrete conversation: the fetched image message
is an eligible row, and its summary turn sits immediately before its own
turn in the assembled history. -/
theorem buildHistory_ordering_witness :
    (c1MsgImage ∈ c1Db ∧ c1MsgImage.conversationId = "c" ∧
      c1MsgImage.status ≠ .DELETED)
    ∧ ∃ pre post,
        historyOfMessages (getLastMessages c1Db "c" HISTORY_LIMIT) =
          pre ++ (toImageSummaryItems c1MsgImage ++ [messageTurn c1MsgImage]) ++ post :=
  ⟨(buildHistory_ordering c1Db none "c").1 c1MsgImage (by decide),
    ((buildHistory_ordering c1Db none "c").2.2.2.2.1 c1MsgImage (by decide)).2⟩

/-- Helper: a list with a member is not `isEmpty`. -/
lemma isEmpty_false_of_mem {α : Type} {x : α} {l : List α} (h : x ∈ l) :
    l.isEmpty = false := by
  cases l with
  | nil => simp at h
  | cons a as => rfl

/-- Counterexample to C3 as stated: with no `ImageFile` rows and five
`IMAGE` messages of which only the oldest carries a storage key (the four
newer ones have no usable attachments), the `get_images` tool returns an
empty list — the fallback only scans the four most recent `IMAGE`
messages. -/
theorem fallback_images_counterexample :
    (List.filter (fun r => r.conversationId == "c") ([] : List ImageRecord) = [])
    ∧ (∃ m ∈ c3Messages, m.contentType = .IMAGE ∧
        ∃ att ∈ m.attachments, strTruthy (attS3Key att) = true)
    ∧ (getImageToolExecute c3Sign (.num 900) [] c3Messages "c").images = [] := by
  refine ⟨rfl, ?_, ?_⟩
  · exact ⟨c3MsgOld, by decide, by decide, c3Att, by decide, by decide⟩
  · rfl

/-- Claim C3 as amended: when no `ImageFile` rows exist for the
conversation and an attachment of one of the four most recent
`IMAGE`-typed messages carries a truthy storage key, the `get_images`
tool returns a non-empty list containing that attachment re-signed; an
attachment of those messages with no key but a truthy URL is passed
through with its URL unmodified. -/
theorem fallback_images_amended (sign : String → ℚ → String)
    (configuredTtl : JsNum) (imageFiles : List ImageRecord)
    (messages : List Message) (cid : String) (m : Message) (att : Attachment)
    (hIf : imageFiles.filter (fun r => r.conversationId == cid) = [])
    (hm : m ∈ recentImageMessages messages cid) (hatt : att ∈ m.attachments) :
    (strTruthy (attS3Key att) = true →
      (getImageToolExecute sign configuredTtl imageFiles messages cid).images ≠ [] ∧
      ({ id := att.id.getD m.id,
         url := getPresignedUrlForKeyModel sign configuredTtl
             ((attS3Key att).getD "") none,
         filename := att.filename, mimeType := att.attType,
         uploadedAt := m.createdAt } : ToolImage) ∈
        (getImageToolExecute sign configuredTtl imageFiles messages cid).images)
    ∧ (strTruthy (attS3Key att) = false → strTruthy att.url = true →
      (getImageToolExecute sign configuredTtl imageFiles messages cid).images ≠ [] ∧
      ({ id := att.id.getD m.id, url := att.url.getD "",
         filename := att.filename, mimeType := att.attType,
         uploadedAt := m.createdAt } : ToolImage) ∈
        (getImageToolExecute sign configuredTtl imageFiles messages cid).images) := by
  have hprimary : getRecentImagesWithPresignedUrls sign configuredTtl imageFiles
      cid none none = [] := by
    unfold getRecentImagesWithPresignedUrls
    rw [hIf]
    rfl
  have hexec : ∀ img ∈ fallbackImages sign configuredTtl messages cid,
      (getImageToolExecute sign configuredTtl imageFiles messages cid).images =
        fallbackImages sign configuredTtl messages cid := by
    intro img himg
    unfold getImageToolExecute
    rw [hprimary]
    simp only [List.isEmpty_nil, if_true]
    rw [isEmpty_false_of_mem himg]
    simp
  constructor
  · intro hkey
    have hattImg : fallbackAttachmentImage sign configuredTtl m.id m.createdAt att =
        some { id := att.id.getD m.id,
               url := getPresignedUrlForKeyModel sign configuredTtl
                   ((attS3Key att).getD "") none,
               filename := att.filename, mimeType := att.attType,
               uploadedAt := m.createdAt } := by
      simp [fallbackAttachmentImage, hkey]
    have himg : ({ id := att.id.getD m.id,
                   url := getPresignedUrlForKeyModel sign configuredTtl
                       ((attS3Key att).getD "") none,
                   filename := att.filename, mimeType := att.attType,
                   uploadedAt := m.createdAt } : ToolImage) ∈
        fallbackImages sign configuredTtl messages cid := by
      unfold fallbackImages
      rw [List.mem_flatMap]
      exact ⟨m, hm, List.mem_filterMap.mpr ⟨att, hatt, hattImg⟩⟩
    rw [hexec _ himg]
    exact ⟨List.ne_nil_of_mem himg, himg⟩
  · intro hkey hurl
    have hattImg : fallbackAttachmentImage sign configuredTtl m.id m.createdAt att =
        some { id := att.id.getD m.id, url := att.url.getD "",
               filename := att.filename, mimeType := att.attType,
               uploadedAt := m.createdAt } := by
      simp [fallbackAttachmentImage, hkey, hurl]
    have himg : ({ id := att.id.getD m.id, url := att.url.getD "",
                   filename := att.filename, mimeType := att.attType,
                   uploadedAt := m.createdAt } : ToolImage) ∈
        fallbackImages sign configuredTtl messages cid := by
      unfold fallbackImages
      rw [List.mem_flatMap]
      exact ⟨m, hm, List.mem_filterMap.mpr ⟨att, hatt, hattImg⟩⟩
    rw [hexec _ himg]
    exact ⟨List.ne_nil_of_mem himg, himg⟩

/-- Witness for the amended C3: with only the keyed message present it is
among the four most recent `IMAGE` messages, and the tool returns its
re-signed attachment. -/
theorem fallback_images_amended_witness :
    (getImageToolExecute c3Sign (.num 900) [] [c3MsgOld] "c").images ≠ [] ∧
    ({ id := c3Att.id.getD c3MsgOld.id,
       url := getPresignedUrlForKeyModel c3Sign (.num 900)
           ((attS3Key c3Att).getD "") none,
       filename := c3Att.filename, mimeType := c3Att.attType,
       uploadedAt := c3MsgOld.createdAt } : ToolImage) ∈
      (getImageToolExecute c3Sign (.num 900) [] [c3MsgOld] "c").images :=
  (fallback_images_amended c3Sign (.num 900) [] [c3MsgOld] "c" c3MsgOld c3Att
    rfl (by decide) (by decide)).1 (by decide)

/-- Counterexample to C4 as stated: the `src/agent/ClaraAgent.ts` revision
of `processMessageWithImages` prepends the built conversation history, so
with one prior message the input handed to the generation capability has
two turns, not the single user turn. -/
theorem vision_history_counterexample :
    processMessageWithImagesSrcInput [c4Msg] "c" "what" [c4Img] =
      .ok [messageTurn c4Msg, toUserItemWithImagesSrc "what" [c4Img]]
    ∧ ∀ l, processMessageWithImagesSrcInput [c4Msg] "c" "what" [c4Img] = .ok l →
        l.length ≠ 1 := by
  have hA : processMessageWithImagesSrcInput [c4Msg] "c" "what" [c4Img] =
      .ok [messageTurn c4Msg, toUserItemWithImagesSrc "what" [c4Img]] := rfl
  refine ⟨hA, ?_⟩
  intro l h
  rw [hA] at h
  obtain rfl := Except.ok.inj h
  decide

/-- Claim C4 as amended: in the part_003 revision, every vision turn
accepted by `processMessageWithImages` (and `processVisionQuestion`,
which delegates to it) sends exactly one item — the single user turn made
of the question text followed by the cleaned image references — with no
prior history; the `src/agent/ClaraAgent.ts` revision instead prepends
history. -/
theorem vision_single_turn_part003 (text : String) (images : List String)
    (l : List AgentInputItem)
    (h : processMessageWithImagesInput text images = .ok l) :
    l.length = 1
    ∧ l = [{ role := .user, status := none,
             content := .inputText text ::
               ((((images.filter fun u => !(u == "")).map jsTrim).filter
                   fun u => u.length > 0).map InputContentPart.inputImage) }]
    ∧ processVisionQuestionInput text images = .ok l := by
  have hl : l = [{ role := .user, status := none,
                   content := .inputText text ::
                     ((((images.filter fun u => !(u == "")).map jsTrim).filter
                         fun u => u.length > 0).map InputContentPart.inputImage) }] := by
    simp only [processMessageWithImagesInput] at h
    split_ifs at h with h₁ h₂
    exact (Except.ok.inj h).symm
  subst hl
  exact ⟨rfl, rfl, h⟩

/-- Witness for the amended C4: a concrete accepted vision turn produces
a one-item input, also through `processVisionQuestion`. -/
theorem vision_single_turn_part003_witness :
    ∃ l, processMessageWithImagesInput "what" ["http://x"] = .ok l ∧ l.length = 1 ∧
      processVisionQuestionInput "what" ["http://x"] = .ok l := by
  have h : processMessageWithImagesInput "what" ["http://x"] =
      .ok [{ role := .user, status := none,
             content := [.inputText "what", .inputImage "http://x"] }] := rfl
  have hth := vision_single_turn_part003 "what" ["http://x"] _ h
  exact ⟨_, h, hth.1, hth.2.2⟩

end Copilot
